import Mathlib

/-!
Shallow embedding of `can/interfaces/morphle_eth2can/morphle_eth2can.py`:
the wire codec (`struct.pack(">BI", ...)` / `struct.unpack(">BI", ...)`),
the receive-side frame reassembly loop of `MorphleCanBus._recv_internal`,
the send path of `MorphleCanBus.send`, the bounded-retry `connect_to_server`,
and `MorphleCanBus.shutdown`.  Bytes are modelled as `Nat` (values < 256 where
the Python `bytes` type enforces it).
-/

namespace MorphleEth2Can

/-- Modelled from the spec: the `can.Message` class (construction and field
storage) is repository code that is not under `src/`, so it is taken from the
spec's data model, under which `data` is an ordered sequence of 0-8 bytes stored
verbatim, `isExtendedId` is always `false` here, and the timestamp (source
float `0.0`) is modelled as the natural number `0`. -/
structure CanMessage where
  arbitrationId : Nat
  data : List Nat
  isExtendedId : Bool
  timestamp : Nat
deriving DecidableEq, Repr

/-- The four big-endian bytes of a 32-bit unsigned integer, as produced by the
`I` component of `struct.pack(">BI", head, arbitration_id)`. -/
def beBytes4 (n : Nat) : List Nat :=
  [n / 2 ^ 24 % 256, n / 2 ^ 16 % 256, n / 2 ^ 8 % 256, n % 256]

/-- The value of four big-endian bytes, as recovered by the `I` component of
`struct.unpack(">BI", ...)` (any other shape yields `0`; the reassembler only
ever passes four bytes). -/
def beOfBytes4 (bs : List Nat) : Nat :=
  match bs with
  | [b1, b2, b3, b4] => b1 * 2 ^ 24 + b2 * 2 ^ 16 + b3 * 2 ^ 8 + b4
  | _ => 0

/-- Semantics of `struct.pack(">BI", head, arbId)`: one byte and four big-endian bytes.
`struct.error` (head or id out of range) is modelled as `none`. -/
def structPackBI (head arbId : Nat) : Option (List Nat) :=
  if head < 256 ∧ arbId < 2 ^ 32 then some (head :: beBytes4 arbId) else none

/-- Constant `__ethcan_message_head = 0x08`. -/
def ethcanMessageHead : Nat := 0x08

/-- Constant `__ethcan_message_fixed_len = 13`. -/
def ethcanMessageFixedLen : Nat := 13

/-- The bytes `MorphleCanBus.send` hands to `sendall`:
`header_payload = struct.pack(">BI", 0x08, msg.arbitration_id)` followed by
`msg.data` verbatim (`homing_payload = header_payload + msg.data`). -/
def encodeMessage (msg : CanMessage) : Option (List Nat) :=
  (structPackBI ethcanMessageHead msg.arbitrationId).map (fun hdr => hdr ++ msg.data)

/-- Decoding one 13-byte window, as in `_recv_internal`:
`arbitration_id = struct.unpack(">BI", bytes(can_frame[:5]))[1]` (component 1,
i.e. bytes 1-4 big-endian), `data = can_frame[5:]`, `is_extended_id=False`,
`timestamp=0.0`. -/
def decodeFrame (frame : List Nat) : CanMessage :=
  { arbitrationId := beOfBytes4 ((frame.take 5).drop 1)
  , data := frame.drop 5
  , isExtendedId := false
  , timestamp := 0 }

/-- The frame-reassembly pass of `_recv_internal` on a buffer: the source
iterates `i` over `range(len(buf) // 13)`, takes the window
`buf[i*13:(i+1)*13]`, appends the decoded message when `buf[i*13] <= 0x08`
and only logs otherwise, and finally keeps `buf[(len(buf)//13)*13:]` as the
new receive buffer.  Here the same windows are peeled off the front one at a
time. -/
def processBuffer (buf : List Nat) : List CanMessage × List Nat :=
  if _h : 13 ≤ buf.length then
    if buf.headD 0 ≤ ethcanMessageHead then
      (decodeFrame (buf.take 13) :: (processBuffer (buf.drop 13)).1,
        (processBuffer (buf.drop 13)).2)
    else processBuffer (buf.drop 13)
  else ([], buf)
termination_by buf.length
decreasing_by all_goals simp [List.length_drop]; omega

/-- One receive pass over a chunk of raw socket bytes:
`self.__receive_buffer += msg` followed by the decode loop. -/
def feed (carry chunk : List Nat) : List CanMessage × List Nat :=
  processBuffer (carry ++ chunk)

/-- Successive receive passes, one chunk per `_recv_internal` call, collecting
all decoded messages in order together with the final carry-over buffer. -/
def feedChunks (carry : List Nat) : List (List Nat) → List CanMessage × List Nat
  | [] => ([], carry)
  | c :: cs =>
    let r := feed carry c
    let r' := feedChunks r.2 cs
    (r.1 ++ r'.1, r'.2)

/-- A buffer shorter than one frame is left untouched: no window is decoded. -/
theorem processBuffer_small (buf : List Nat) (h : buf.length < 13) :
    processBuffer buf = ([], buf) := by
  rw [processBuffer, dif_neg (by omega)]

/-- Unfolding one window of the reassembly pass. -/
theorem processBuffer_step (buf : List Nat) (h : 13 ≤ buf.length) :
    processBuffer buf =
      if buf.headD 0 ≤ ethcanMessageHead then
        (decodeFrame (buf.take 13) :: (processBuffer (buf.drop 13)).1,
          (processBuffer (buf.drop 13)).2)
      else processBuffer (buf.drop 13) := by
  rw [processBuffer, dif_pos h]

/-- After a pass, the leftover is the tail past the last full 13-byte window,
and is shorter than one frame. -/
theorem processBuffer_rest (buf : List Nat) :
    (processBuffer buf).2 = buf.drop (13 * (buf.length / 13)) ∧
      ((processBuffer buf).2).length < 13 := by
  induction buf using processBuffer.induct with
  | case1 buf h hhead ih =>
    rw [processBuffer_step buf h, if_pos hhead]
    refine ⟨?_, ih.2⟩
    rw [ih.1, List.drop_drop, List.length_drop]
    congr 1
    omega
  | case2 buf h hhead ih =>
    rw [processBuffer_step buf h, if_neg hhead]
    refine ⟨?_, ih.2⟩
    rw [ih.1, List.drop_drop, List.length_drop]
    congr 1
    omega
  | case3 buf h =>
    have hlt : buf.length < 13 := by omega
    rw [processBuffer_small buf hlt]
    have h0 : buf.length / 13 = 0 := by omega
    simp [h0, hlt]

/-- Splitting the byte stream after `l` commutes with the reassembly pass:
processing `l ++ c` decodes the messages of `l` followed by those of `l`'s
leftover prepended to `c`, and leaves that second pass's leftover. -/
theorem processBuffer_append (l c : List Nat) :
    processBuffer (l ++ c) =
      ((processBuffer l).1 ++ (processBuffer ((processBuffer l).2 ++ c)).1,
        (processBuffer ((processBuffer l).2 ++ c)).2) := by
  induction l using processBuffer.induct with
  | case1 l h hhead ih =>
    have hlen : 13 ≤ (l ++ c).length := by simp; omega
    have htake : (l ++ c).take 13 = l.take 13 :=
      List.take_append_of_le_length h
    have hdrop : (l ++ c).drop 13 = l.drop 13 ++ c :=
      List.drop_append_of_le_length h
    have hhead' : (l ++ c).headD 0 = l.headD 0 := by
      cases l with
      | nil => simp at h
      | cons a t => simp
    rw [processBuffer_step (l ++ c) hlen, hhead', if_pos hhead,
      processBuffer_step l h, if_pos hhead, hdrop, htake, ih]
    simp
  | case2 l h hhead ih =>
    have hlen : 13 ≤ (l ++ c).length := by simp; omega
    have hdrop : (l ++ c).drop 13 = l.drop 13 ++ c :=
      List.drop_append_of_le_length h
    have hhead' : (l ++ c).headD 0 = l.headD 0 := by
      cases l with
      | nil => simp at h
      | cons a t => simp
    rw [processBuffer_step (l ++ c) hlen, hhead', if_neg hhead,
      processBuffer_step l h, if_neg hhead, hdrop, ih]
  | case3 l h =>
    have hlt : l.length < 13 := by omega
    rw [processBuffer_small l hlt]
    simp

/-- Chunked receive passes agree with one pass over the joined stream, as long
as the starting carry-over buffer is shorter than one frame. -/
theorem feedChunks_join (cs : List (List Nat)) : ∀ s : List Nat, s.length < 13 →
    feedChunks s cs = feed s cs.flatten := by
  induction cs with
  | nil =>
    intro s hs
    simp [feedChunks, feed, processBuffer_small s hs]
  | cons c cs ih =>
    intro s hs
    have hlt : ((feed s c).2).length < 13 := (processBuffer_rest (s ++ c)).2
    simp only [feedChunks, List.flatten_cons]
    rw [ih _ hlt]
    show ((feed s c).1 ++ (feed (feed s c).2 cs.flatten).1,
        (feed (feed s c).2 cs.flatten).2) = feed s (c ++ cs.flatten)
    unfold feed
    rw [← List.append_assoc, processBuffer_append (s ++ c) cs.flatten]

/-- A single valid 13-byte window decodes to exactly one message and leaves an
empty buffer. -/
theorem processBuffer_single (w : List Nat) (hw : w.length = 13)
    (hh : w.headD 0 ≤ ethcanMessageHead) :
    processBuffer w = ([decodeFrame w], []) := by
  rw [processBuffer_step w (by omega), if_pos hh,
    List.take_of_length_le (by omega), List.drop_eq_nil_of_le (by omega),
    processBuffer_small [] (by simp)]

/-- The value of the four big-endian bytes of a 32-bit value is the value. -/
theorem beOfBytes4_beBytes4 (n : Nat) (h : n < 2 ^ 32) :
    beOfBytes4 (beBytes4 n) = n := by
  have h32 : (2 : Nat) ^ 32 = 4294967296 := by norm_num
  have h24 : (2 : Nat) ^ 24 = 16777216 := by norm_num
  have h16 : (2 : Nat) ^ 16 = 65536 := by norm_num
  have h8 : (2 : Nat) ^ 8 = 256 := by norm_num
  simp only [beBytes4, beOfBytes4, h32, h24, h16, h8] at *
  omega

/-- C1: for a `CanMessage` with an 8-byte payload and a 32-bit arbitration ID,
the encoded 13-byte wire frame, decoded by the receive-side pass, yields
exactly one message whose `arbitrationId` and `data` are those of the
original, with nothing left in the buffer. -/
theorem encode_decode_roundtrip (m : CanMessage)
    (hid : m.arbitrationId < 2 ^ 32) (hlen : m.data.length = 8) :
    ∃ wire, encodeMessage m = some wire ∧ wire.length = 13 ∧
      ((processBuffer wire).1.map fun d => (d.arbitrationId, d.data)) =
        [(m.arbitrationId, m.data)] ∧
      (processBuffer wire).2 = [] := by
  refine ⟨ethcanMessageHead :: beBytes4 m.arbitrationId ++ m.data, ?_, ?_, ?_, ?_⟩
  · simp only [encodeMessage, structPackBI, ethcanMessageHead]
    rw [if_pos ⟨by norm_num, hid⟩]
    rfl
  · simp [beBytes4, hlen]
  · rw [processBuffer_single _ (by simp [beBytes4, hlen]) (by simp [beBytes4])]
    have harb : ((ethcanMessageHead :: beBytes4 m.arbitrationId ++ m.data).take 5).drop 1
        = beBytes4 m.arbitrationId := by
      simp [beBytes4]
    have hdat : (ethcanMessageHead :: beBytes4 m.arbitrationId ++ m.data).drop 5
        = m.data := by
      simp [beBytes4]
    simp only [decodeFrame, List.map_cons, List.map_nil]
    rw [harb, hdat, beOfBytes4_beBytes4 _ hid]
  · rw [processBuffer_single _ (by simp [beBytes4, hlen]) (by simp [beBytes4])]

/-- C1 witness at a concrete message. -/
theorem encode_decode_roundtrip_witness :
    (0x123 : Nat) < 2 ^ 32 ∧
      ∃ wire,
        encodeMessage ⟨0x123, [1, 2, 3, 4, 5, 6, 7, 8], false, 0⟩ = some wire ∧
        wire.length = 13 ∧
        ((processBuffer wire).1.map fun d => (d.arbitrationId, d.data)) =
          [(0x123, [1, 2, 3, 4, 5, 6, 7, 8])] ∧
        (processBuffer wire).2 = [] :=
  ⟨by norm_num,
    encode_decode_roundtrip ⟨0x123, [1, 2, 3, 4, 5, 6, 7, 8], false, 0⟩
      (by norm_num) (by decide)⟩

/-- C2 counterexample: `send` on `arbitrationId = 0x123`, `data = [0x01, 0x02]`
hands `sendall` the 7-byte sequence `08 00 00 01 23 01 02` — the payload is
appended verbatim, not zero-padded to 8 bytes, so the claimed 13-byte
sequence is not what is written. -/
theorem send_example_no_padding :
    encodeMessage ⟨0x123, [0x01, 0x02], false, 0⟩ =
        some [0x08, 0x00, 0x00, 0x01, 0x23, 0x01, 0x02] ∧
      some [0x08, 0x00, 0x00, 0x01, 0x23, 0x01, 0x02] ≠
        some [0x08, 0x00, 0x00, 0x01, 0x23, 0x01, 0x02,
          0x00, 0x00, 0x00, 0x00, 0x00, 0x00] := by
  constructor
  · decide
  · decide

/-- C2 amended: sending `arbitrationId = 0x123`, `data = [0x01, 0x02]` writes
exactly the 7 bytes `08 00 00 01 23 01 02` (head byte, big-endian arbitration
ID, payload verbatim, no padding); the 13-byte sequence of the claim is
written only when the caller has already padded the data to 8 bytes. -/
theorem send_example_wire_bytes :
    encodeMessage ⟨0x123, [0x01, 0x02], false, 0⟩ =
        some [0x08, 0x00, 0x00, 0x01, 0x23, 0x01, 0x02] ∧
      encodeMessage ⟨0x123, [0x01, 0x02, 0x00, 0x00, 0x00, 0x00, 0x00, 0x00],
          false, 0⟩ =
        some [0x08, 0x00, 0x00, 0x01, 0x23, 0x01, 0x02,
          0x00, 0x00, 0x00, 0x00, 0x00, 0x00] := by
  constructor
  · decide
  · decide

/-- C3: after a receive pass, the carry-over buffer is shorter than one
13-byte frame and holds exactly the trailing bytes of the appended stream
past the last complete 13-byte slice — no byte is discarded. -/
theorem feed_leftover_invariant (carry chunk : List Nat) :
    ((feed carry chunk).2).length < 13 ∧
      (feed carry chunk).2 =
        (carry ++ chunk).drop (13 * ((carry ++ chunk).length / 13)) := by
  have h := processBuffer_rest (carry ++ chunk)
  exact ⟨h.2, h.1⟩

/-- C4: feeding a byte stream one byte per call, starting from an empty
carry-over buffer, decodes the same ordered message sequence as feeding the
whole stream in a single call. -/
theorem feed_chunking_invariant (bs : List Nat) :
    (feedChunks [] (bs.map fun b => [b])).1 = (feed [] bs).1 := by
  have hj : (bs.map fun b => [b]).flatten = bs := by
    induction bs with
    | nil => simp
    | cons a t ih => simp [ih]
  rw [feedChunks_join _ [] (by simp), hj]

/-- C5: a 13-byte window whose first byte exceeds `0x08` contributes no
message and is skipped whole: the pass continues on the rest of the buffer
exactly as if the window were absent, so later frames are decoded with no
byte loss. -/
theorem invalid_head_window_skipped (w t : List Nat)
    (hw : w.length = 13) (hh : ethcanMessageHead < w.headD 0) :
    processBuffer (w ++ t) = processBuffer t := by
  have hlen : 13 ≤ (w ++ t).length := by simp [hw]
  have hhead' : (w ++ t).headD 0 = w.headD 0 := by
    cases w with
    | nil => simp at hw
    | cons a u => simp
  rw [processBuffer_step _ hlen, hhead', if_neg (by omega),
    List.drop_append_of_le_length (by omega),
    List.drop_eq_nil_of_le (by omega), List.nil_append]

/-- C5 witness: a `0xFF`-headed garbage window followed by a valid frame. -/
theorem invalid_head_window_skipped_witness :
    ([0xFF, 0, 0, 0, 0, 0, 0, 0, 0, 0, 0, 0, 0] : List Nat).length = 13 ∧
      ethcanMessageHead <
        ([0xFF, 0, 0, 0, 0, 0, 0, 0, 0, 0, 0, 0, 0] : List Nat).headD 0 ∧
      processBuffer
          ([0xFF, 0, 0, 0, 0, 0, 0, 0, 0, 0, 0, 0, 0] ++
            [0x08, 0, 0, 0x01, 0x23, 1, 2, 3, 4, 5, 6, 7, 8]) =
        processBuffer [0x08, 0, 0, 0x01, 0x23, 1, 2, 3, 4, 5, 6, 7, 8] :=
  ⟨by decide, by decide,
    invalid_head_window_skipped _ _ (by decide) (by decide)⟩

/-- C9: two 13-byte windows that agree on bytes 1-12 and whose head bytes are
both at most `0x08` are both accepted, and decode to the same message: the
decoded fields depend only on bytes 1-12. -/
theorem decode_ignores_head_byte (w1 w2 : List Nat)
    (h1 : w1.length = 13) (h2 : w2.length = 13)
    (ht : w1.drop 1 = w2.drop 1)
    (hh1 : w1.headD 0 ≤ ethcanMessageHead)
    (hh2 : w2.headD 0 ≤ ethcanMessageHead) :
    processBuffer w1 = ([decodeFrame w1], []) ∧
      processBuffer w2 = ([decodeFrame w2], []) ∧
      decodeFrame w1 = decodeFrame w2 := by
  refine ⟨processBuffer_single w1 h1 hh1, processBuffer_single w2 h2 hh2, ?_⟩
  unfold decodeFrame
  rw [List.drop_take 5 1 w1, List.drop_take 5 1 w2, ht,
    ← List.drop_drop 4 1 w1, ← List.drop_drop 4 1 w2, ht]

/-- C9 witness: head bytes `0x00` and `0x08` over identical bytes 1-12. -/
theorem decode_ignores_head_byte_witness :
    ([0x00, 0, 0, 0x01, 0x23, 1, 2, 3, 4, 5, 6, 7, 8] : List Nat).length = 13 ∧
      ([0x08, 0, 0, 0x01, 0x23, 1, 2, 3, 4, 5, 6, 7, 8] : List Nat).length = 13 ∧
      decodeFrame [0x00, 0, 0, 0x01, 0x23, 1, 2, 3, 4, 5, 6, 7, 8] =
        decodeFrame [0x08, 0, 0, 0x01, 0x23, 1, 2, 3, 4, 5, 6, 7, 8] :=
  ⟨by decide, by decide,
    (decode_ignores_head_byte
      [0x00, 0, 0, 0x01, 0x23, 1, 2, 3, 4, 5, 6, 7, 8]
      [0x08, 0, 0, 0x01, 0x23, 1, 2, 3, 4, 5, 6, 7, 8]
      (by decide) (by decide) (by decide) (by decide) (by decide)).2.2⟩

/-- Outcome of the `select.select([sock], [], [], timeout)` readiness check in
`_recv_internal`: it raised `OSError`, returned an empty ready list, or
reported the socket readable. -/
inductive SelectResult
  | err
  | notReady
  | ready
deriving DecidableEq, Repr

/-- Error conditions of the bus.  The source only ever raises `can.CanError`;
`connectionClosed` and `transportClosed` are the conditions the spec names,
included so that claims about them can be stated — no code path produces
them. -/
inductive BusError
  | canError
  | connectionClosed
  | transportClosed
deriving DecidableEq, Repr

/-- The mutable state of a `MorphleCanBus`: `self.__message_buffer` (the
decoded-message deque) and `self.__receive_buffer` (the carry-over bytes). -/
structure BusState where
  messageBuffer : List CanMessage
  receiveBuffer : List Nat
deriving DecidableEq, Repr

/-- The body of `MorphleCanBus._recv_internal`, with the environment made explicit:
`sel` is the outcome of the `select.select` readiness check and `chunk` is
what `self.__socket.recv(1024)` returns when the socket is ready (an empty
chunk is what a peer-closed socket returns).  The source pops the deque if
non-empty, otherwise polls; on `OSError` from `select` it raises
`can.CanError`; on timeout it returns `(None, False)`; otherwise it appends
the chunk to the receive buffer, runs the decode loop, keeps the leftover
bytes, and pops the first decoded message if any. -/
def recvInternal (st : BusState) (sel : SelectResult) (chunk : List Nat) :
    Except BusError (Option CanMessage) × BusState :=
  match st.messageBuffer with
  | m :: rest => (.ok (some m), { st with messageBuffer := rest })
  | [] =>
    match sel with
    | .err => (.error .canError, st)
    | .notReady => (.ok none, st)
    | .ready =>
      let r := processBuffer (st.receiveBuffer ++ chunk)
      match r.1 with
      | [] => (.ok none, { messageBuffer := [], receiveBuffer := r.2 })
      | m :: ms => (.ok (some m), { messageBuffer := ms, receiveBuffer := r.2 })

/-- Result of `MorphleCanBus.send`: the bytes handed to
`self.__socket.sendall`, or the error raised. -/
inductive SendResult
  | sent (wire : List Nat)
  | osError
  | structError
  | transportClosed
deriving DecidableEq, Repr

/-- The body of `MorphleCanBus.send`: packs the header, appends `msg.data`, and calls
`sendall` unconditionally — there is no closed-socket guard anywhere on this
path.  `closed` records whether `shutdown` has run; `sendall` on a socket
whose `close()` has run raises `OSError` (bad file descriptor), modelled as
`.osError`; `struct.pack` range errors as `.structError`. -/
def send (closed : Bool) (msg : CanMessage) : SendResult :=
  match encodeMessage msg with
  | none => .structError
  | some wire => if closed then .osError else .sent wire

/-- The body of `MorphleCanBus.shutdown`: calls `self.__socket.close()`; the only state it
touches is the socket, which becomes closed. -/
def shutdown (_closed : Bool) : Bool := true

/-- C6 counterexample: after `shutdown`, `send` fails with the OS-level error
of writing to a closed socket, which is not a `TransportClosed` condition. -/
theorem shutdown_send_not_transport_closed :
    send (shutdown false) ⟨0x123, [0x01, 0x02], false, 0⟩ = .osError ∧
      SendResult.osError ≠ SendResult.transportClosed := by
  constructor
  · decide
  · decide

/-- C6 amended: the code has no closed-socket check: after `shutdown`, a
subsequent `send` still attempts the write on the closed socket and fails
with the OS-level socket error (and `receiveNext` likewise polls the closed
socket); no `TransportClosed` condition exists in the code. -/
theorem shutdown_send_os_error (c : Bool) (m : CanMessage)
    (hid : m.arbitrationId < 2 ^ 32) :
    send (shutdown c) m = .osError := by
  unfold send shutdown encodeMessage structPackBI
  rw [if_pos ⟨by norm_num [ethcanMessageHead], hid⟩]
  rfl

/-- C6 witness at a concrete message. -/
theorem shutdown_send_os_error_witness :
    (0x123 : Nat) < 2 ^ 32 ∧
      send (shutdown false) ⟨0x123, [0x01, 0x02], false, 0⟩ = .osError :=
  ⟨by norm_num,
    shutdown_send_os_error false ⟨0x123, [0x01, 0x02], false, 0⟩ (by norm_num)⟩

/-- C7 counterexample: empty queue, ready socket, zero-byte read — the call
returns the normal `(None, unchanged-state)` result; no error is raised. -/
theorem zero_byte_read_not_an_error :
    recvInternal ⟨[], []⟩ .ready [] = (.ok none, ⟨[], []⟩) := by
  simp [recvInternal, processBuffer_small ([] : List Nat) (by simp)]

/-- C7 amended: a zero-byte read (the peer-closed signal) is not detected:
with an empty decoded-message queue and a ready socket, a read returning no
bytes leaves the carry-over buffer unchanged and returns a normal
`(None, …)` result — no `ConnectionClosed` condition is surfaced. -/
theorem zero_byte_read_returns_none (st : BusState)
    (hq : st.messageBuffer = []) (hb : st.receiveBuffer.length < 13) :
    recvInternal st .ready [] = (.ok none, st) := by
  obtain ⟨q, buf⟩ := st
  subst hq
  simp only [recvInternal, List.append_nil,
    processBuffer_small buf (by simpa using hb)]

/-- C7 witness at a concrete state. -/
theorem zero_byte_read_returns_none_witness :
    (BusState.mk [] [1, 2, 3]).messageBuffer = [] ∧
      (BusState.mk [] [1, 2, 3]).receiveBuffer.length < 13 ∧
      recvInternal ⟨[], [1, 2, 3]⟩ .ready [] = (.ok none, ⟨[], [1, 2, 3]⟩) :=
  ⟨by decide, by decide,
    zero_byte_read_returns_none ⟨[], [1, 2, 3]⟩ (by decide) (by decide)⟩

/-- C10: when the `select` readiness check raises an OS-level error,
`_recv_internal` raises `can.CanError` and the state is exactly what it was:
the check precedes every read and decode, so nothing was consumed. -/
theorem select_error_atomicity (st : BusState) (chunk : List Nat)
    (hq : st.messageBuffer = []) :
    recvInternal st .err chunk = (.error .canError, st) := by
  obtain ⟨q, buf⟩ := st
  subst hq
  rfl

/-- C10 witness at a concrete state. -/
theorem select_error_atomicity_witness :
    (BusState.mk [] [7, 7]).messageBuffer = [] ∧
      recvInternal ⟨[], [7, 7]⟩ .err [9, 9] = (.error .canError, ⟨[], [7, 7]⟩) :=
  ⟨by decide, select_error_atomicity ⟨[], [7, 7]⟩ [9, 9] (by decide)⟩

/-- Outcome of `connect_to_server`: `s.connect` returned (the function
returns normally) or the loop exhausted its window (`TimeoutError` raised). -/
inductive ConnectResult
  | connected
  | timedOut
deriving DecidableEq, Repr

/-- The retry loop of `connect_to_server` (`while now < end_time`), driven by
an explicit environment: `env` lists, for each successive `s.connect`
attempt, whether it succeeds, paired with the `time.time() * 1000` reading
taken after it fails (the reading is unused when the attempt succeeds, since
the function returns at once).  `now` is the reading currently held by the
loop.  `none` means the environment was exhausted while the loop still
wanted to retry. -/
def connectLoop (endTime : Nat) : Nat → List (Bool × Nat) → Option ConnectResult
  | now, [] => if now < endTime then none else some .timedOut
  | now, (ok, t) :: rest =>
    if now < endTime then
      if ok then some .connected else connectLoop endTime t rest
    else some .timedOut

/-- The function `connect_to_server`: `timeout_ms = 10000`, `end_time = now + timeout_ms`,
then the retry loop, starting from the initial clock reading `now0`. -/
def connect_to_server (now0 : Nat) (env : List (Bool × Nat)) :
    Option ConnectResult :=
  connectLoop (now0 + 10000) now0 env

/-- The loop connects exactly when, within the window, some attempt succeeds
after a run of failed attempts whose clock readings all stayed inside the
window. -/
theorem connectLoop_connected_iff (e : Nat) :
    ∀ (now : Nat) (env : List (Bool × Nat)),
      connectLoop e now env = some .connected ↔
        now < e ∧ ∃ pre t rest, env = pre ++ (true, t) :: rest ∧
          ∀ p ∈ pre, p.1 = false ∧ p.2 < e := by
  intro now env
  induction env generalizing now with
  | nil =>
    by_cases hn : now < e <;>
      simp [connectLoop, hn, fun pre (t : Nat) rest =>
        (List.append_ne_nil_of_right_ne_nil pre
          (List.cons_ne_nil (true, t) rest)).symm]
  | cons p rest ih =>
    obtain ⟨ok, t0⟩ := p
    by_cases hn : now < e
    · cases ok with
      | true =>
        simp only [connectLoop, if_pos hn, if_pos rfl]
        constructor
        · intro _
          exact ⟨hn, [], t0, rest, rfl, by simp⟩
        · intro _
          rfl
      | false =>
        simp only [connectLoop, if_pos hn, Bool.false_eq_true, if_false]
        rw [ih t0]
        constructor
        · rintro ⟨ht0, pre, t, rest', hsplit, hpre⟩
          exact ⟨hn, (false, t0) :: pre, t, rest', by rw [hsplit]; rfl,
            by
              intro q hq
              rcases List.mem_cons.mp hq with hq0 | hq1
              · subst hq0; exact ⟨rfl, ht0⟩
              · exact hpre q hq1⟩
        · rintro ⟨-, pre, t, rest', hsplit, hpre⟩
          cases pre with
          | nil =>
            simp only [List.nil_append, List.cons.injEq] at hsplit
            exact absurd hsplit.1 (by simp)
          | cons q pre' =>
            simp only [List.cons_append, List.cons.injEq] at hsplit
            obtain ⟨hq0, hrest⟩ := hsplit
            have hmem := hpre q (List.mem_cons_self q ((pre' : List (Bool × Nat)) ))
            refine ⟨?_, pre', t, rest', hrest, fun r hr =>
              hpre r (List.mem_cons_of_mem q hr)⟩
            have : q.2 = t0 := by rw [← hq0]
            rw [← this]
            exact hmem.2
    · simp [connectLoop, hn]

/-- Whenever the environment settles the loop — some listed attempt succeeds
or some listed reading leaves the window (or the window is already over) —
the loop terminates with one of the two outcomes. -/
theorem connectLoop_total (e : Nat) :
    ∀ (now : Nat) (env : List (Bool × Nat)),
      (e ≤ now ∨ ∃ p ∈ env, p.1 = true ∨ e ≤ p.2) →
        connectLoop e now env = some .connected ∨
          connectLoop e now env = some .timedOut := by
  intro now env
  induction env generalizing now with
  | nil =>
    intro h
    rcases h with h | ⟨p, hp, -⟩
    · right
      simp [connectLoop, Nat.not_lt.mpr h]
    · simp at hp
  | cons p rest ih =>
    intro h
    obtain ⟨ok, t0⟩ := p
    by_cases hn : now < e
    · cases ok with
      | true =>
        left
        simp [connectLoop, hn]
      | false =>
        simp only [connectLoop, if_pos hn, Bool.false_eq_true, if_false]
        apply ih
        rcases h with h | ⟨q, hq, hcase⟩
        · omega
        · rcases List.mem_cons.mp hq with hq0 | hq1
          · rcases hcase with hT | hE
            · rw [hq0] at hT
              exact absurd hT (by simp)
            · rw [hq0] at hE
              exact Or.inl hE
          · exact Or.inr ⟨q, hq1, hcase⟩
    · right
      simp [connectLoop, hn]

/-- C8: `connect_to_server` retries with no pause until an attempt succeeds
within the 10-second window — in which case it returns normally — or a clock
reading at the top of the loop has left the window — in which case it raises
`TimeoutError`; whenever the environment settles the loop, these are the
only two outcomes. -/
theorem connect_to_server_outcomes (now0 : Nat) (env : List (Bool × Nat)) :
    (connect_to_server now0 env = some .connected ↔
      ∃ pre t rest, env = pre ++ (true, t) :: rest ∧
        ∀ p ∈ pre, p.1 = false ∧ p.2 < now0 + 10000) ∧
    ((∃ p ∈ env, p.1 = true ∨ now0 + 10000 ≤ p.2) →
      connect_to_server now0 env = some .connected ∨
        connect_to_server now0 env = some .timedOut) := by
  constructor
  · rw [connect_to_server, connectLoop_connected_iff (now0 + 10000) now0 env]
    constructor
    · exact fun h => h.2
    · exact fun h => ⟨by omega, h⟩
  · intro h
    exact connectLoop_total (now0 + 10000) now0 env (Or.inr h)

/-- C8 witness: one failed attempt inside the window followed by a success
connects; a single failure whose reading is past the window times out. -/
theorem connect_to_server_outcomes_witness :
    connect_to_server 0 [(false, 5), (true, 20)] = some .connected ∧
      (connect_to_server 0 [(false, 12000)] = some .connected ∨
        connect_to_server 0 [(false, 12000)] = some .timedOut) :=
  ⟨(connect_to_server_outcomes 0 [(false, 5), (true, 20)]).1.mpr
      ⟨[(false, 5)], 20, [], rfl, by decide⟩,
    (connect_to_server_outcomes 0 [(false, 12000)]).2
      ⟨(false, 12000), by decide, by decide⟩⟩

end MorphleEth2Can
